import Mathlib

/-!
# Verification of the open-percentiles leaderboard sampler (`src/app.py`)

A shallow embedding of the pure core of `app.py`: the score parser
(`_parse_reps`), the percentile formula (`_percentile_from_rank`), the page
sampler (`_make_page_samples`), the submission-boundary binary search
(`_find_last_submission_page`), per-page point extraction
(`_extract_points_from_page`, `_max_submitted_rank`, `_page_has_submissions`)
and the curve-building pipeline of the `api_curve` handler.

Modelling conventions:
* JSON scalar fields that the code coerces with `int(...)`/`str(...)` are
  embedded as `JsonVal` (an integer or a string); an absent key is `none`.
* Python truthiness (`x or default`) is `JsonVal.truthy` / `orZero` /
  `orEmptyStr`.
* `int(s)` on a string is `pyStrToInt`, returning `none` where Python raises
  `ValueError`; an uncaught `ValueError` (and the `ZeroDivisionError` in
  `_make_page_samples`) makes the embedded pipeline return `none`
  (`Option`-valued functions model exception propagation).
* The regex `(\d+)\s*rep` (IGNORECASE) is embedded over `List Char` with
  ASCII digit and whitespace classes, leftmost-match / greedy-digits
  semantics (backtracking cannot produce any other match for this pattern).
* Remote fetches are a parameter `fetch : Nat → PageJson` giving the page
  returned for each page number; the initial metadata request (no `page`
  parameter) is a separate `first : PageJson` argument.
* Floats (`100.0 * ...`, `submitted/total`, `math.ceil(a/b)`) are embedded
  as exact rational / integer arithmetic.
* `row.get("scores", [{}])[0]` and `scores[0] if scores else {}` are both
  embedded as `headD` of a `List ScoreJson` with an all-absent default
  score (the `IndexError` Python would raise on a present-but-empty
  `scores` list is not distinguished; no claim depends on it).
-/

/-- A scalar JSON value as consumed by the code: a number or a string. -/
inductive JsonVal where
  | num (n : Int)
  | str (s : String)
deriving DecidableEq, Repr

/-- Python truthiness of a scalar: `0` and `""` are falsy. -/
def JsonVal.truthy : JsonVal → Bool
  | .num n => n != 0
  | .str s => s != ""

/-- `x.get(key) or 0` applied to an optional scalar field. -/
def orZero (o : Option JsonVal) : JsonVal :=
  match o with
  | some v => if v.truthy then v else .num 0
  | none => .num 0

/-- `x.get(key) or ""` applied to an optional scalar field. -/
def orEmptyStr (o : Option JsonVal) : JsonVal :=
  match o with
  | some v => if v.truthy then v else .str ""
  | none => .str ""

/-- Python `str(...)` of a scalar. -/
def pyStr : JsonVal → String
  | .num n => toString n
  | .str s => s

/-- Python `int(str)`: optional surrounding ASCII whitespace, an optional
sign, then a nonempty digit string; anything else raises `ValueError`
(`none`).  (Python also accepts `_` digit grouping, which no input in this
development uses.) -/
def pyStrToInt (s : String) : Option Int :=
  let cs := (s.data.dropWhile Char.isWhitespace).reverse.dropWhile Char.isWhitespace |>.reverse
  let (neg, ds) :=
    match cs with
    | '-' :: rest => (true, rest)
    | '+' :: rest => (false, rest)
    | rest => (false, rest)
  if ds ≠ [] ∧ ds.all Char.isDigit then
    let n : Nat := ds.foldl (fun a c => 10 * a + (c.toNat - 48)) 0
    some (if neg then -(n : Int) else (n : Int))
  else
    none

/-- Python `int(...)` of a scalar JSON value (`ValueError` is `none`). -/
def pyInt : JsonVal → Option Int
  | .num n => some n
  | .str s => pyStrToInt s

/-- One entry of a row's `scores` array. -/
structure ScoreJson where
  scoreDisplay : Option String
  breakdown : Option String
  valid : Option JsonVal
deriving DecidableEq, Repr

/-- The all-absent score used for `row.get("scores", [{}])[0]` /
`scores[0] if scores else {}`. -/
def emptyScoreJson : ScoreJson := ⟨none, none, none⟩

/-- One leaderboard row. -/
structure RowJson where
  overallRank : Option JsonVal
  scores : List ScoreJson
deriving DecidableEq, Repr

/-- The `pagination` object. -/
structure PaginationJson where
  totalPages : Option JsonVal
  totalCompetitors : Option JsonVal
deriving DecidableEq, Repr

/-- One page response of the remote API (fields the code consumes). -/
structure PageJson where
  pagination : Option PaginationJson
  leaderboardRows : Option (List RowJson)
deriving DecidableEq, Repr

/-- `page_json.get("leaderboardRows") or []`. -/
def rowsOf (p : PageJson) : List RowJson := p.leaderboardRows.getD []

/-- Truthiness of an optional string field (`None` and `""` are falsy). -/
def truthyStr : Option String → Bool
  | some s => s != ""
  | none => false

/-! ## Score parser: `_parse_reps` and the regex `(\d+)\s*rep` (IGNORECASE) -/

/-- Python `\s` for the ASCII range. -/
def isPySpace (c : Char) : Bool :=
  c = ' ' || c = '\t' || c = '\n' || c = '\r' || c = '\x0b' || c = '\x0c'

/-- Does `rep` (case-insensitively) start here? -/
def matchesRep : List Char → Bool
  | r :: e :: p :: _ => r.toLower = 'r' && e.toLower = 'e' && p.toLower = 'p'
  | _ => false

/-- Numeric value of an ASCII digit string. -/
def digitsToNat (ds : List Char) : Nat :=
  ds.foldl (fun a c => 10 * a + (c.toNat - 48)) 0

/-- Attempt the match `(\d+)\s*rep` anchored at the head of `cs`: a maximal
nonempty digit run, maximal whitespace, then `rep` case-insensitively.  (For
this pattern regex backtracking can never succeed where the greedy attempt
fails, so the greedy attempt is the full match semantics.) -/
def matchRepAt (cs : List Char) : Option Nat :=
  let ds := cs.takeWhile Char.isDigit
  if ds.isEmpty then none
  else
    let rest := (cs.dropWhile Char.isDigit).dropWhile isPySpace
    if matchesRep rest then some (digitsToNat ds) else none

/-- `re.search`: try the anchored match at each position, leftmost first. -/
def searchRepsAux : List Char → Option Nat
  | [] => none
  | c :: rest =>
    match matchRepAt (c :: rest) with
    | some n => some n
    | none => searchRepsAux rest

/-- `re.search(r"(\d+)\s*rep", text, re.IGNORECASE)`, returning
`int(m.group(1))` of the first match. -/
def searchReps (text : String) : Option Nat :=
  searchRepsAux text.data

/-- `_parse_reps`: the `for text in (breakdown, score_display)` loop — skip
falsy texts, return the first text's match, else `None`. -/
def firstRepMatch : List (Option String) → Option Nat
  | [] => none
  | t :: rest =>
    match t with
    | none => firstRepMatch rest
    | some s =>
      if s = "" then firstRepMatch rest
      else
        match searchReps s with
        | some n => some n
        | none => firstRepMatch rest

/-- `_parse_reps(score_display, breakdown)`. -/
def parseReps (score_display : Option String) (breakdown : Option String) : Option Nat :=
  firstRepMatch [breakdown, score_display]

/-- Spec-side restatement (from the spec's words, for the refinement claim):
search the breakdown text first for the pattern; if found return that
integer; otherwise apply the same pattern to the primary display string;
`none` when neither matches or both are absent. -/
def specExtract (score_display : Option String) (breakdown : Option String) : Option Nat :=
  match breakdown with
  | some b =>
    match searchReps b with
    | some n => some n
    | none =>
      match score_display with
      | some d => searchReps d
      | none => none
  | none =>
    match score_display with
    | some d => searchReps d
    | none => none

example : parseReps (some "11:16") (some "354 reps, 3 rounds") = some 354 := by decide
example : parseReps (some "221 reps") none = some 221 := by decide
example : parseReps (some "DNF") none = none := by decide

/-! ## Percentile: `_percentile_from_rank` (float arithmetic embedded as ℚ) -/

/-- `_percentile_from_rank(rank, total_competitors)`:
`100.0 * (1.0 - (rank - 1) / total_competitors)`. -/
def percentileFromRank (rank : Int) (total_competitors : Int) : ℚ :=
  100 * (1 - ((rank : ℚ) - 1) / (total_competitors : ℚ))

/-! ## Page sampler: `_make_page_samples` -/

/-- `math.ceil(a / b)` on integers with `b ≠ 0` (exact; Python evaluates the
quotient in floating point, identical for all magnitudes a leaderboard can
reach). -/
def pyCeilDiv (a b : Int) : Int := -((-a).fdiv b)

/-- `sorted(set(l))`: insert into a strictly-ascending duplicate-free list. -/
def insertSortedDedup (a : Nat) : List Nat → List Nat
  | [] => [a]
  | b :: t =>
    if a < b then a :: b :: t
    else if a = b then b :: t
    else b :: insertSortedDedup a t

/-- `sorted(set(l))` for a list of page numbers. -/
def sortedDedup (l : List Nat) : List Nat := l.foldr insertSortedDedup []

/-- The bucket loop of `_make_page_samples` for `n = total_pages ≥ 1` and a
step `≥ 1`: `range(1, n + 1, step)` (which has `ceil(n / step)` elements),
the middle page `(start + min(n, start + step - 1)) // 2` of each bucket,
then `sorted(set(...))`. -/
def samplePagesCore (n step : Nat) : List Nat :=
  sortedDedup ((List.range' 1 ((n + step - 1) / step) step).map
    fun start => (start + min n (start + step - 1)) / 2)

/-- `_make_page_samples(total_pages, target_buckets)`.  Returns `none` for
the uncaught `ZeroDivisionError` when `total_pages > 0` and
`target_buckets == 0`. -/
def makePageSamples (total_pages : Int) (target_buckets : Int) : Option (List Nat) :=
  if total_pages ≤ 0 then some [1]
  else if target_buckets = 0 then none
  else some (samplePagesCore total_pages.toNat
    (max 1 (pyCeilDiv total_pages target_buckets)).toNat)

example : makePageSamples 5 2 = some [2, 4] := by decide
example : makePageSamples 10 3 = some [2, 6, 9] := by decide
example : makePageSamples 0 7 = some [1] := by decide
example : makePageSamples 3 0 = none := by decide
example : makePageSamples 10 20 = some [1, 2, 3, 4, 5, 6, 7, 8, 9, 10] := by decide

/-! ## Page predicates and the boundary binary search -/

/-- `_page_has_submissions(page_json)`. -/
def pageHasSubmissions (page_json : PageJson) : Bool :=
  (rowsOf page_json).any fun row =>
    truthyStr (row.scores.headD emptyScoreJson).scoreDisplay

/-- `_max_submitted_rank(page_json)`: highest `int(overallRank or 0)` among
rows with a truthy `scoreDisplay`; a `ValueError` on the rank is swallowed. -/
def maxSubmittedRank (page_json : PageJson) : Int :=
  (rowsOf page_json).foldl
    (fun max_rank row =>
      if truthyStr (row.scores.headD emptyScoreJson).scoreDisplay then
        match pyInt (orZero row.overallRank) with
        | some r => max max_rank r
        | none => max_rank
      else max_rank)
    0

/-- The `while lo < hi` loop of `_find_last_submission_page`, also counting
remote fetches.  The loop is embedded with a fuel argument (the caller
passes fuel `≥ hi - lo`, so the loop's own exit condition is always reached
first); `last_json = some pj` models a truthy retained
page (a retained page has a row with a truthy `scoreDisplay`, hence is a
nonempty dict, hence truthy). -/
def findLastAux (fetch : Nat → PageJson) :
    Nat → Nat → Nat → Option PageJson → Nat → Nat × Option PageJson × Nat
  | 0, lo, _hi, last_json, fetches => (lo, last_json, fetches)
  | fuel + 1, lo, hi, last_json, fetches =>
    if lo < hi then
      let mid := (lo + hi + 1) / 2
      let page_json := fetch mid
      if pageHasSubmissions page_json then
        findLastAux fetch fuel mid hi (some page_json) (fetches + 1)
      else
        findLastAux fetch fuel lo (mid - 1) last_json (fetches + 1)
    else (lo, last_json, fetches)

/-- `_find_last_submission_page(base_params, total_pages)`: the returned
boundary page, the page data handed back, and the number of fetches made. -/
def findLastSubmissionPage (fetch : Nat → PageJson) (total_pages : Int) :
    Nat × PageJson × Nat :=
  match findLastAux fetch total_pages.toNat 1 total_pages.toNat none 0 with
  | (lo, some pj, fetches) => (lo, pj, fetches)
  | (lo, none, fetches) => (lo, fetch lo, fetches + 1)

/-! ## Point extraction: `_extract_points_from_page` -/

/-- A plotted point `{rank, reps, percentile}`. -/
structure Point where
  rank : Int
  reps : Nat
  percentile : ℚ
deriving DecidableEq, Repr

/-- The body of the row loop in `_extract_points_from_page`, threading
`(points, submitted_rows, total_rows)`. -/
def extractRow (total_competitors : Int) (total_submitted : Int)
    (acc : List Point × Nat × Nat) (row : RowJson) : List Point × Nat × Nat :=
  let (pts, sub, tot) := acc
  let tot := tot + 1
  match pyInt (orZero row.overallRank) with
  | none => (pts, sub, tot)            -- `except ValueError: continue`
  | some rank =>
    let first := row.scores.headD emptyScoreJson
    let valid := pyStr (orEmptyStr first.valid) = "1"
    let reps := parseReps first.scoreDisplay first.breakdown
    let sub := if valid ∧ reps.isSome then sub + 1 else sub
    let pct_base := if total_submitted != 0 then total_submitted else total_competitors
    match reps with
    | none => (pts, sub, tot)
    | some r =>
      if rank ≤ 0 ∨ pct_base ≤ 0 then (pts, sub, tot)
      else (pts ++ [⟨rank, r, percentileFromRank rank pct_base⟩], sub, tot)

/-- `_extract_points_from_page(page_json, fallback_total, total_submitted)`.
`none` models the uncaught `ValueError` when `pagination.totalCompetitors`
is a truthy non-numeric string. -/
def extractPointsFromPage (page_json : PageJson) (fallback_total : Int)
    (total_submitted : Int) : Option (List Point × Nat × Nat) := do
  let pagination := page_json.pagination.getD ⟨none, none⟩
  let tc ← pyInt (orZero pagination.totalCompetitors)
  let total_competitors := if tc != 0 then tc else fallback_total
  return (rowsOf page_json).foldl (extractRow total_competitors total_submitted) ([], 0, 0)

/-! ## Merge, sort, and the `api_curve` pipeline -/

/-- One dict update of `by_rank`: replace in place when the stored point for
that rank has strictly smaller `reps`, append otherwise-new ranks at the
end (Python dicts preserve key insertion order). -/
def insertPoint (pt : Point) : List Point → List Point
  | [] => [pt]
  | q :: t =>
    if q.rank = pt.rank then
      (if pt.reps > q.reps then pt else q) :: t
    else q :: insertPoint pt t

/-- The dedup loop of `api_curve` step 4: `by_rank` as an insertion-ordered
association list, then `list(by_rank.values())`. -/
def mergeByRank (all_points : List Point) : List Point :=
  all_points.foldl (fun acc pt => insertPoint pt acc) []

/-- Ascending comparison on percentiles (the `points.sort` key). -/
def pctLE (a b : Point) : Prop := a.percentile ≤ b.percentile

instance : DecidableRel pctLE := fun a b =>
  inferInstanceAs (Decidable (a.percentile ≤ b.percentile))

instance : IsTotal Point pctLE := ⟨fun a b => le_total a.percentile b.percentile⟩

instance : IsTrans Point pctLE := ⟨fun _ _ _ h h' => le_trans h h'⟩

/-- `points.sort(key=lambda x: x["percentile"])`. -/
def sortByPercentile (l : List Point) : List Point := List.insertionSort pctLE l

/-- `sorted(...)` on page numbers (for the forced inclusion of page 1). -/
def sortPagesAsc (l : List Nat) : List Nat := List.insertionSort (· ≤ ·) l

/-- The response payload of `api_curve` (the numeric `meta` fields the
claims are about, the rate, and the points; the echoed request strings and
the constant `year`/`competition`/`note` fields are omitted). -/
structure CurvePayload where
  totalPages : Int
  totalCompetitors : Int
  lastSubmissionPage : Nat
  totalSubmitted : Int
  sampledPages : Nat
  sampledRows : Nat
  sampledSubmittedRows : Nat
  estimatedSubmissionRate : Option ℚ
  points : List Point
deriving DecidableEq, Repr

/-- The per-page accumulation loop of `api_curve` step 3. -/
def accumulatePages (first : PageJson) (fetch : Nat → PageJson) (last_sub_page : Nat)
    (last_sub_json : PageJson) (total_competitors : Int) (total_submitted : Int) :
    List Nat → (List Point × Nat × Nat) → Option (List Point × Nat × Nat)
  | [], acc => some acc
  | p :: rest, acc => do
    let page_json :=
      if p = 1 then first
      else if p = last_sub_page then last_sub_json
      else fetch p
    let (pts, sub, tot) ← extractPointsFromPage page_json total_competitors total_submitted
    accumulatePages first fetch last_sub_page last_sub_json total_competitors total_submitted
      rest (acc.1 ++ pts, acc.2.1 + sub, acc.2.2 + tot)

/-- Steps 3–7 of the `api_curve` handler, after the sampled page set is
known: force-include page 1, fetch and extract every sampled page, dedupe
by rank, sort by percentile, estimate the submission rate and assemble the
payload. -/
def apiCurveAfterSamples (first : PageJson) (fetch : Nat → PageJson)
    (last_sub_page : Nat) (last_sub_json : PageJson)
    (total_pages total_competitors : Int) (samples : List Nat) :
    Option CurvePayload := do
  let total_submitted := maxSubmittedRank last_sub_json
  let sample_pages := if 1 ∈ samples then samples else sortPagesAsc (1 :: samples)
  let acc ←
    accumulatePages first fetch last_sub_page last_sub_json total_competitors total_submitted
      sample_pages ([], 0, 0)
  let submitted_rows := acc.2.1
  let total_rows := acc.2.2
  let points := sortByPercentile (mergeByRank acc.1)
  let submission_rate : Option ℚ :=
    if total_rows ≠ 0 then some ((submitted_rows : ℚ) / (total_rows : ℚ)) else none
  return { totalPages := total_pages
           totalCompetitors := total_competitors
           lastSubmissionPage := last_sub_page
           totalSubmitted := total_submitted
           sampledPages := sample_pages.length
           sampledRows := total_rows
           sampledSubmittedRows := submitted_rows
           estimatedSubmissionRate := submission_rate
           points := points }

/-- The curve computation of the `api_curve` handler (cache and HTTP shell
aside): `first` is the initial metadata response, `fetch p` the response for
`page=p`.  `none` models an uncaught exception (non-numeric pagination
fields, or the `ZeroDivisionError` for `buckets = 0`). -/
def apiCurve (first : PageJson) (fetch : Nat → PageJson) (buckets : Int) :
    Option CurvePayload := do
  let pagination := first.pagination.getD ⟨none, none⟩
  let total_pages ← pyInt (orZero pagination.totalPages)
  let total_competitors ← pyInt (orZero pagination.totalCompetitors)
  let located := findLastSubmissionPage fetch total_pages
  let last_sub_page := located.1
  let last_sub_json := located.2.1
  let samples ← makePageSamples (last_sub_page : Int) buckets
  apiCurveAfterSamples first fetch last_sub_page last_sub_json total_pages
    total_competitors samples

/-! ## Helper lemmas: parser -/

theorem searchReps_empty : searchReps "" = none := rfl

theorem firstRepMatch_single (t : Option String) :
    firstRepMatch [t] = t.bind searchReps := by
  cases t with
  | none => rfl
  | some s =>
    by_cases hs : s = ""
    · subst hs; rfl
    · simp only [firstRepMatch, hs, if_false, Option.bind]
      cases hr : searchReps s <;> simp [hr, firstRepMatch]

theorem firstRepMatch_cons (t : Option String) (rest : List (Option String)) :
    firstRepMatch (t :: rest) =
      match t.bind searchReps with
      | some n => some n
      | none => firstRepMatch rest := by
  cases t with
  | none => rfl
  | some s =>
    by_cases hs : s = ""
    · subst hs; simp [firstRepMatch, searchReps_empty, Option.bind]
    · simp only [firstRepMatch, hs, if_false, Option.bind]

/-! ## Helper lemmas: merge by rank -/

/-- `res` holds a point of `q`'s rank whose value dominates `q`'s. -/
def domAt (res : List Point) (q : Point) : Prop :=
  ∃ p ∈ res, p.rank = q.rank ∧ q.reps ≤ p.reps

theorem mem_insertPoint {p pt : Point} : ∀ {l : List Point},
    p ∈ insertPoint pt l → p = pt ∨ p ∈ l := by
  intro l
  induction l with
  | nil => simp [insertPoint]
  | cons q t ih =>
    simp only [insertPoint]
    by_cases h : q.rank = pt.rank
    · simp only [h, if_true]
      by_cases h2 : pt.reps > q.reps <;> simp only [h2, if_true, if_false] <;>
        intro hm <;> rcases List.mem_cons.mp hm with h3 | h3 <;> simp [h3]
    · simp only [h, if_false]
      intro hm
      rcases List.mem_cons.mp hm with h3 | h3
      · simp [h3]
      · rcases ih h3 with h4 | h4
        · exact Or.inl h4
        · exact Or.inr (List.mem_cons_of_mem _ h4)

theorem domAt_insertPoint_self (pt : Point) : ∀ l : List Point,
    domAt (insertPoint pt l) pt := by
  intro l
  induction l with
  | nil => exact ⟨pt, by simp [insertPoint], rfl, le_rfl⟩
  | cons q t ih =>
    simp only [insertPoint]
    by_cases h : q.rank = pt.rank
    · simp only [h, if_true]
      by_cases h2 : pt.reps > q.reps
      · simp only [h2, if_true]
        exact ⟨pt, List.mem_cons_self _ _, rfl, le_rfl⟩
      · simp only [h2, if_false]
        exact ⟨q, List.mem_cons_self _ _, h, Nat.le_of_not_lt h2⟩
    · simp only [h, if_false]
      obtain ⟨p, hp, hr, hle⟩ := ih
      exact ⟨p, List.mem_cons_of_mem _ hp, hr, hle⟩

theorem domAt_insertPoint_mono {q : Point} (pt : Point) : ∀ {l : List Point},
    domAt l q → domAt (insertPoint pt l) q := by
  intro l
  induction l with
  | nil => rintro ⟨p, hp, _⟩; simp at hp
  | cons a t ih =>
    rintro ⟨p, hp, hr, hle⟩
    rcases List.mem_cons.mp hp with rfl | hpt
    · -- `q`'s dominator is the head `a = p`
      simp only [insertPoint]
      by_cases h : p.rank = pt.rank
      · simp only [h, if_true]
        by_cases h2 : pt.reps > p.reps
        · simp only [h2, if_true]
          exact ⟨pt, List.mem_cons_self _ _, h ▸ hr, hle.trans (Nat.le_of_lt h2)⟩
        · simp only [h2, if_false]
          exact ⟨p, List.mem_cons_self _ _, hr, hle⟩
      · simp only [h, if_false]
        exact ⟨p, List.mem_cons_self _ _, hr, hle⟩
    · -- `q`'s dominator is in the tail
      simp only [insertPoint]
      by_cases h : a.rank = pt.rank
      · simp only [h, if_true]
        by_cases h2 : pt.reps > a.reps <;> simp only [h2, if_true, if_false]
        -- the tail is unchanged in both branches
        · exact ⟨p, List.mem_cons_of_mem _ hpt, hr, hle⟩
        · exact ⟨p, List.mem_cons_of_mem _ hpt, hr, hle⟩
      · simp only [h, if_false]
        obtain ⟨p', hp', hr', hle'⟩ := ih ⟨p, hpt, hr, hle⟩
        exact ⟨p', List.mem_cons_of_mem _ hp', hr', hle'⟩

theorem rank_mem_insertPoint {x : Int} {pt : Point} {l : List Point}
    (h : x ∈ (insertPoint pt l).map Point.rank) :
    x = pt.rank ∨ x ∈ l.map Point.rank := by
  obtain ⟨p, hp, rfl⟩ := List.mem_map.mp h
  rcases mem_insertPoint hp with rfl | hpl
  · exact Or.inl rfl
  · exact Or.inr (List.mem_map_of_mem _ hpl)

theorem ranks_nodup_insertPoint (pt : Point) : ∀ {l : List Point},
    (l.map Point.rank).Nodup → ((insertPoint pt l).map Point.rank).Nodup := by
  intro l
  induction l with
  | nil => intro _; simp [insertPoint]
  | cons q t ih =>
    intro hn
    simp only [List.map_cons, List.nodup_cons] at hn
    obtain ⟨hq, ht⟩ := hn
    simp only [insertPoint]
    by_cases h : q.rank = pt.rank
    · simp only [h, if_true]
      by_cases h2 : pt.reps > q.reps
      · simp only [h2, if_true, List.map_cons, List.nodup_cons]
        exact ⟨h ▸ hq, ht⟩
      · simp only [h2, if_false, List.map_cons, List.nodup_cons]
        exact ⟨hq, ht⟩
    · simp only [h, if_false, List.map_cons, List.nodup_cons]
      refine ⟨fun hmem => ?_, ih ht⟩
      rcases rank_mem_insertPoint hmem with h3 | h3
      · exact h h3
      · exact hq h3

theorem mergeAux_spec : ∀ (l acc : List Point),
    (∀ p ∈ l.foldl (fun a pt => insertPoint pt a) acc, p ∈ acc ∨ p ∈ l) ∧
    (∀ q, domAt acc q ∨ q ∈ l → domAt (l.foldl (fun a pt => insertPoint pt a) acc) q) ∧
    ((acc.map Point.rank).Nodup →
      ((l.foldl (fun a pt => insertPoint pt a) acc).map Point.rank).Nodup) := by
  intro l
  induction l with
  | nil =>
    intro acc
    refine ⟨fun p hp => Or.inl hp, ?_, fun h => h⟩
    rintro q (hd | hq)
    · exact hd
    · simp at hq
  | cons x l ih =>
    intro acc
    obtain ⟨iha, ihb, ihc⟩ := ih (insertPoint x acc)
    refine ⟨?_, ?_, ?_⟩
    · intro p hp
      rcases iha p hp with hmem | hmem
      · rcases mem_insertPoint hmem with rfl | hmem2
        · exact Or.inr (List.mem_cons_self _ _)
        · exact Or.inl hmem2
      · exact Or.inr (List.mem_cons_of_mem _ hmem)
    · rintro q (hd | hq)
      · exact ihb q (Or.inl (domAt_insertPoint_mono x hd))
      · rcases List.mem_cons.mp hq with rfl | hq2
        · exact ihb q (Or.inl (domAt_insertPoint_self q acc))
        · exact ihb q (Or.inr hq2)
    · intro hn
      exact ihc (ranks_nodup_insertPoint x hn)

theorem mergeByRank_mem {pts : List Point} {p : Point} (hp : p ∈ mergeByRank pts) :
    p ∈ pts := by
  rcases (mergeAux_spec pts []).1 p hp with h | h
  · simp at h
  · exact h

theorem mergeByRank_ranks_nodup (pts : List Point) :
    ((mergeByRank pts).map Point.rank).Nodup :=
  (mergeAux_spec pts []).2.2 (by simp)

theorem mergeByRank_domAt {pts : List Point} {q : Point} (hq : q ∈ pts) :
    domAt (mergeByRank pts) q :=
  (mergeAux_spec pts []).2.1 q (Or.inr hq)

/-- Any point `mergeByRank` keeps dominates every input point of its rank. -/
theorem mergeByRank_keeps_max {pts : List Point} {p : Point}
    (hp : p ∈ mergeByRank pts) {q : Point} (hq : q ∈ pts)
    (hrank : q.rank = p.rank) : q.reps ≤ p.reps := by
  obtain ⟨p', hp', hr', hle'⟩ := mergeByRank_domAt hq
  have : p' = p :=
    List.inj_on_of_nodup_map (mergeByRank_ranks_nodup pts) hp' hp (by rw [hr', hrank])
  exact this ▸ hle'

/-! ## Claim theorems: parser, percentile, merge -/

/-- **C2**: for every pair of optional strings, `_parse_reps` returns the
first `(\d+)\s*rep` match of the breakdown text, else that of the primary
display string, else `none`; in particular `("11:16", "354 reps, 3 rounds")`
yields `354` and `("221 reps", None)` yields `221`. -/
theorem parse_reps_precedence_c2 :
    (∀ score_display breakdown : Option String,
      parseReps score_display breakdown = specExtract score_display breakdown) ∧
    parseReps (some "11:16") (some "354 reps, 3 rounds") = some 354 ∧
    parseReps (some "221 reps") none = some 221 := by
  refine ⟨fun d b => ?_, by decide, by decide⟩
  show firstRepMatch [b, d] = specExtract d b
  rw [firstRepMatch_cons, firstRepMatch_single]
  cases b with
  | none =>
    cases d with
    | none => rfl
    | some s => simp [specExtract, Option.bind]
  | some sb =>
    cases hb : searchReps sb with
    | some n => simp [specExtract, hb, Option.bind]
    | none =>
      cases d with
      | none => simp [specExtract, hb, Option.bind]
      | some s => simp [specExtract, hb, Option.bind]

/-- **C4**: `_percentile_from_rank` computes `100 * (1 - (rank - 1)/base)`;
for fixed positive base it is strictly decreasing in rank, and rank 1 maps
to exactly 100 for every base `N ≥ 1`. -/
theorem percentile_formula_c4 :
    (∀ rank base : Int,
      percentileFromRank rank base = 100 * (1 - ((rank : ℚ) - 1) / (base : ℚ))) ∧
    (∀ base : Int, 0 < base → ∀ r₁ r₂ : Int, r₁ < r₂ →
      percentileFromRank r₂ base < percentileFromRank r₁ base) ∧
    (∀ N : Int, 1 ≤ N → percentileFromRank 1 N = 100) := by
  refine ⟨fun _ _ => rfl, ?_, ?_⟩
  · intro base hb r₁ r₂ hr
    have hbq : (0 : ℚ) < (base : ℚ) := by exact_mod_cast hb
    have hrq : ((r₁ : ℚ) - 1) < ((r₂ : ℚ) - 1) := by
      have : (r₁ : ℚ) < (r₂ : ℚ) := by exact_mod_cast hr
      linarith
    have hdiv : ((r₁ : ℚ) - 1) / (base : ℚ) < ((r₂ : ℚ) - 1) / (base : ℚ) :=
      div_lt_div_of_pos_right hrq hbq
    unfold percentileFromRank
    linarith
  · intro N _
    simp [percentileFromRank]

/-- `p`'s value dominates every point of `p`'s rank among `pts`. -/
def dominatesAll (pts : List Point) (p : Point) : Prop :=
  ∀ q ∈ pts, q.rank = p.rank → q.reps ≤ p.reps

/-- **C5**: when emitted points are merged by rank, the point kept for a
rank dominates every emitted point of that rank (larger value wins); in
particular values 5 then 9 on one rank merge to 9. -/
theorem merge_keeps_larger_c5 :
    (∀ pts : List Point, ∀ p ∈ mergeByRank pts, p ∈ pts ∧ dominatesAll pts p) ∧
    mergeByRank [⟨1, 5, 50⟩, ⟨1, 9, 90⟩] = [⟨1, 9, 90⟩] := by
  refine ⟨fun pts p hp => ⟨mergeByRank_mem hp, fun q hq hr => mergeByRank_keeps_max hp hq hr⟩,
    by decide⟩

/-- Witness for C5 at a concrete merge. -/
theorem merge_keeps_larger_c5_witness :
    (⟨1, 9, 90⟩ : Point) ∈ [(⟨1, 5, 50⟩ : Point), ⟨1, 9, 90⟩] ∧
    dominatesAll [(⟨1, 5, 50⟩ : Point), ⟨1, 9, 90⟩] ⟨1, 9, 90⟩ :=
  merge_keeps_larger_c5.1 [⟨1, 5, 50⟩, ⟨1, 9, 90⟩] ⟨1, 9, 90⟩ (by decide)

/-- **C9, counterexample**: merging duplicates with values 9 then 5 keeps
the first-written 9, not the last-written 5 — last-writer-wins fails. -/
theorem merge_not_last_writer_c9_counterexample :
    mergeByRank [⟨1, 9, 90⟩, ⟨1, 5, 50⟩] = [⟨1, 9, 90⟩] ∧
    (mergeByRank [⟨1, 9, 90⟩, ⟨1, 5, 50⟩]).map Point.reps ≠ [5] := by
  constructor <;> decide

/-- **C9, amended**: when duplicate points share a rank, the merged curve
keeps the duplicate with the larger extracted value (the earlier-written one
on ties), not the last-written one. -/
theorem merge_max_wins_c9 :
    ∀ pts : List Point, ∀ p ∈ mergeByRank pts, dominatesAll pts p :=
  fun _ _ hp _ hq hr => mergeByRank_keeps_max hp hq hr

/-- Witness for the amended C9. -/
theorem merge_max_wins_c9_witness :
    dominatesAll [(⟨1, 9, 90⟩ : Point), ⟨1, 5, 50⟩] ⟨1, 9, 90⟩ :=
  merge_max_wins_c9 [⟨1, 9, 90⟩, ⟨1, 5, 50⟩] ⟨1, 9, 90⟩ (by decide)

/-! ## Helper lemmas: `sorted(set(...))` and the sampler -/

theorem mem_insertSortedDedup {x a : Nat} : ∀ {l : List Nat},
    x ∈ insertSortedDedup a l ↔ x = a ∨ x ∈ l := by
  intro l
  induction l with
  | nil => simp [insertSortedDedup]
  | cons b t ih =>
    simp only [insertSortedDedup]
    by_cases h1 : a < b
    · rw [if_pos h1]
      simp only [List.mem_cons]
    · by_cases h2 : a = b
      · subst h2
        rw [if_neg h1, if_pos rfl]
        simp only [List.mem_cons]
        tauto
      · rw [if_neg h1, if_neg h2]
        simp only [List.mem_cons, ih]
        tauto

theorem sorted_insertSortedDedup (a : Nat) : ∀ {l : List Nat},
    l.Sorted (· < ·) → (insertSortedDedup a l).Sorted (· < ·) := by
  intro l
  induction l with
  | nil => intro _; simp [insertSortedDedup]
  | cons b t ih =>
    intro hs
    rw [List.sorted_cons] at hs
    obtain ⟨hb, ht⟩ := hs
    simp only [insertSortedDedup]
    by_cases h1 : a < b
    · rw [if_pos h1, List.sorted_cons]
      refine ⟨fun x hx => ?_, by rw [List.sorted_cons]; exact ⟨hb, ht⟩⟩
      rcases List.mem_cons.mp hx with rfl | hx
      · exact h1
      · exact h1.trans (hb x hx)
    · by_cases h2 : a = b
      · rw [if_neg h1, if_pos h2, List.sorted_cons]
        exact ⟨hb, ht⟩
      · rw [if_neg h1, if_neg h2, List.sorted_cons]
        refine ⟨fun x hx => ?_, ih ht⟩
        rcases mem_insertSortedDedup.mp hx with rfl | hx
        · omega
        · exact hb x hx

theorem length_insertSortedDedup (a : Nat) : ∀ (l : List Nat),
    (insertSortedDedup a l).length ≤ l.length + 1 := by
  intro l
  induction l with
  | nil => simp [insertSortedDedup]
  | cons b t ih =>
    simp only [insertSortedDedup]
    by_cases h1 : a < b
    · rw [if_pos h1]; simp
    · by_cases h2 : a = b
      · rw [if_neg h1, if_pos h2]; simp
      · rw [if_neg h1, if_neg h2]
        simp only [List.length_cons]
        omega

theorem insertSortedDedup_ne_nil (a : Nat) : ∀ (l : List Nat),
    insertSortedDedup a l ≠ [] := by
  intro l
  cases l with
  | nil => simp [insertSortedDedup]
  | cons b t =>
    simp only [insertSortedDedup]
    by_cases h1 : a < b
    · rw [if_pos h1]; simp
    · by_cases h2 : a = b
      · rw [if_neg h1, if_pos h2]; simp
      · rw [if_neg h1, if_neg h2]; simp

theorem sortedDedup_cons (x : Nat) (l : List Nat) :
    sortedDedup (x :: l) = insertSortedDedup x (sortedDedup l) := rfl

theorem sorted_sortedDedup : ∀ (l : List Nat), (sortedDedup l).Sorted (· < ·) := by
  intro l
  induction l with
  | nil => simp [sortedDedup]
  | cons x t ih => exact sorted_insertSortedDedup x ih

theorem mem_sortedDedup {x : Nat} : ∀ {l : List Nat}, x ∈ sortedDedup l ↔ x ∈ l := by
  intro l
  induction l with
  | nil => simp [sortedDedup]
  | cons b t ih =>
    rw [sortedDedup_cons, mem_insertSortedDedup, List.mem_cons, ih]

theorem length_sortedDedup : ∀ (l : List Nat), (sortedDedup l).length ≤ l.length := by
  intro l
  induction l with
  | nil => simp [sortedDedup]
  | cons b t ih =>
    rw [sortedDedup_cons]
    calc (insertSortedDedup b (sortedDedup t)).length ≤ (sortedDedup t).length + 1 :=
          length_insertSortedDedup b _
      _ ≤ t.length + 1 := by omega
      _ = (b :: t).length := by simp

theorem sortedDedup_ne_nil {l : List Nat} (h : l ≠ []) : sortedDedup l ≠ [] := by
  cases l with
  | nil => exact absurd rfl h
  | cons b t => exact sortedDedup_cons b t ▸ insertSortedDedup_ne_nil b (sortedDedup t)

theorem samplePagesCore_good (n step : Nat) (hn : 1 ≤ n) (hstep : 1 ≤ step) :
    samplePagesCore n step ≠ [] ∧ (samplePagesCore n step).Sorted (· < ·) ∧
    (∀ x ∈ samplePagesCore n step, 1 ≤ x ∧ x ≤ n) ∧
    (samplePagesCore n step).length ≤ (n + step - 1) / step := by
  have hcnt : 1 ≤ (n + step - 1) / step := by
    rw [Nat.one_le_div_iff (by omega)]
    omega
  refine ⟨?_, sorted_sortedDedup _, ?_, ?_⟩
  · apply sortedDedup_ne_nil
    intro hmap
    have := congrArg List.length hmap
    simp [List.length_range'] at this
    omega
  · intro x hx
    simp only [samplePagesCore] at hx
    rw [mem_sortedDedup] at hx
    obtain ⟨start, hstart, rfl⟩ := List.mem_map.mp hx
    obtain ⟨i, hi, rfl⟩ := List.mem_range'.mp hstart
    -- the last bucket start is `1 + step * ((n - 1) / step) ≤ n`
    have hcnt' : (n + step - 1) / step = (n - 1) / step + 1 := by
      have h1 : n + step - 1 = (n - 1) + step := by omega
      rw [h1, Nat.add_div_right _ (by omega)]
    have hi' : i ≤ (n - 1) / step := by omega
    have h2 : step * i ≤ step * ((n - 1) / step) := Nat.mul_le_mul_left step hi'
    have h3 : step * ((n - 1) / step) ≤ n - 1 := by
      rw [Nat.mul_comm]
      exact Nat.div_mul_le_self _ _
    have hstart1 : 1 ≤ 1 + step * i := by omega
    have hstartn : 1 + step * i ≤ n := by omega
    omega
  · calc (samplePagesCore n step).length
        ≤ ((List.range' 1 ((n + step - 1) / step) step).map
            fun start => (start + min n (start + step - 1)) / 2).length :=
          length_sortedDedup _
      _ = (n + step - 1) / step := by simp [List.length_range']

/-- Witness for C4 at concrete ranks and bases. -/
theorem percentile_formula_c4_witness :
    percentileFromRank 5 10 < percentileFromRank 2 10 ∧ percentileFromRank 1 7 = 100 :=
  ⟨percentile_formula_c4.2.1 10 (by decide) 2 5 (by decide),
   percentile_formula_c4.2.2 7 (by decide)⟩

/-- Ceiling division overshoots the exact quotient: `a ≤ ⌈a/b⌉ * b`. -/
theorem le_pyCeilDiv_mul (a b : Int) (hb : 0 < b) : a ≤ pyCeilDiv a b * b := by
  have h1 : (-a).fdiv b = (-a) / b := Int.fdiv_eq_ediv _ (by omega)
  have h2 : (-a) / b * b ≤ -a := Int.ediv_mul_le _ (by omega)
  have h3 : pyCeilDiv a b = -((-a) / b) := by
    unfold pyCeilDiv
    rw [h1]
  rw [h3]
  linarith

/-- The number of buckets `ceil(n / step)` never exceeds the requested
bucket count. -/
theorem bucket_count_le (total_pages target_buckets : Int)
    (htp : 1 ≤ total_pages) (ht : 1 ≤ target_buckets) :
    (total_pages.toNat + (max 1 (pyCeilDiv total_pages target_buckets)).toNat - 1) /
      (max 1 (pyCeilDiv total_pages target_buckets)).toNat ≤ target_buckets.toNat := by
  set c := pyCeilDiv total_pages target_buckets with hc
  have hA : total_pages ≤ c * target_buckets :=
    le_pyCeilDiv_mul total_pages target_buckets (by omega)
  set n := total_pages.toNat with hn
  set t' := target_buckets.toNat with ht'
  by_cases hcase : c ≤ 1
  · -- step is 1; there are `n` buckets and `n ≤ t'`
    have hmax : max 1 c = 1 := by omega
    rw [hmax]
    have hct : c * target_buckets ≤ target_buckets := by nlinarith
    have : total_pages ≤ target_buckets := le_trans hA hct
    simp only [Int.toNat_one]
    omega
  · -- step is `c ≥ 2`
    have hmax : max 1 c = c := by omega
    rw [hmax]
    set s := c.toNat with hs
    have hs1 : 1 ≤ s := by omega
    have hnst : n ≤ s * t' := by
      have hcast : ((s * t' : Nat) : Int) = c * target_buckets := by
        push_cast
        rw [Int.toNat_of_nonneg (by omega), Int.toNat_of_nonneg (by omega)]
      omega
    apply Nat.le_of_lt_succ
    rw [Nat.div_lt_iff_lt_mul (by omega : 0 < s)]
    have hE : (t' + 1) * s = s * t' + s := by ring
    rw [Nat.succ_eq_add_one, hE]
    omega

/-- The guarantees C3 states for the sampler's output list. -/
def isGoodSamples (total_pages target_buckets : Int) (l : List Nat) : Prop :=
  l ≠ [] ∧ l.Sorted (· < ·) ∧ (∀ x ∈ l, 1 ≤ x ∧ (x : Int) ≤ total_pages) ∧
  (l.length : Int) ≤ target_buckets

/-- **C3**: for `boundary_page ≥ 1` and `target_bucket_count ≥ 1` the
sampler succeeds and returns a non-empty strictly-ascending list of pages
in `[1, boundary_page]` with at most `target_bucket_count` entries; for
`boundary_page ≤ 0` it returns exactly `[1]`. -/
theorem sampler_bounds_c3 :
    (∀ total_pages target_buckets : Int, 1 ≤ total_pages → 1 ≤ target_buckets →
      (makePageSamples total_pages target_buckets).isSome ∧
      ∀ l, makePageSamples total_pages target_buckets = some l →
        isGoodSamples total_pages target_buckets l) ∧
    (∀ total_pages target_buckets : Int, total_pages ≤ 0 →
      makePageSamples total_pages target_buckets = some [1]) := by
  constructor
  · intro tp t htp ht
    have hne0 : ¬ tp ≤ 0 := by omega
    have hne1 : ¬ t = 0 := by omega
    constructor
    · simp [makePageSamples, hne0, hne1]
    · intro l hl
      simp only [makePageSamples, hne0, hne1, if_false, Option.some.injEq] at hl
      subst hl
      set step := (max 1 (pyCeilDiv tp t)).toNat with hstep
      have hstep1 : 1 ≤ step := by
        have : 1 ≤ max 1 (pyCeilDiv tp t) := le_max_left _ _
        omega
      have hn1 : 1 ≤ tp.toNat := by omega
      obtain ⟨g1, g2, g3, g4⟩ := samplePagesCore_good tp.toNat step hn1 hstep1
      refine ⟨g1, g2, fun x hx => ?_, ?_⟩
      · obtain ⟨hx1, hx2⟩ := g3 x hx
        constructor
        · omega
        · have : (x : Int) ≤ (tp.toNat : Int) := by exact_mod_cast hx2
          omega
      · have hcnt := bucket_count_le tp t htp ht
        have : (samplePagesCore tp.toNat step).length ≤ t.toNat := le_trans g4 hcnt
        omega
  · intro tp t htp
    simp [makePageSamples, htp]

/-- Witness for C3: `makePageSamples 5 2 = some [2, 4]` meets the bounds,
and a non-positive boundary yields `[1]`. -/
theorem sampler_bounds_c3_witness :
    isGoodSamples 5 2 [2, 4] ∧ makePageSamples 0 7 = some [1] :=
  ⟨(sampler_bounds_c3.1 5 2 (by decide) (by decide)).2 [2, 4] (by decide),
   sampler_bounds_c3.2 0 7 (by decide)⟩

/-! ## Helper lemmas: submission-boundary binary search (C1) -/

theorem findLastAux_boundary (fetch : Nat → PageJson) (k total : Nat)
    (h1 : ∀ p, 1 ≤ p → p ≤ k → pageHasSubmissions (fetch p) = true)
    (h2 : ∀ p, k < p → p ≤ total → pageHasSubmissions (fetch p) = false) :
    ∀ (fuel lo hi : Nat) (lj : Option PageJson) (f : Nat), hi - lo ≤ fuel →
      1 ≤ lo → lo ≤ k → k ≤ hi → hi ≤ total →
      (findLastAux fetch fuel lo hi lj f).1 = k := by
  intro fuel
  induction fuel with
  | zero =>
    intro lo hi lj f hfuel hlo hlok hkhi hhit
    simp only [findLastAux]
    omega
  | succ fuel ih =>
    intro lo hi lj f hfuel hlo hlok hkhi hhit
    rw [findLastAux]
    by_cases hlt : lo < hi
    · rw [if_pos hlt]
      by_cases hsub : pageHasSubmissions (fetch ((lo + hi + 1) / 2)) = true
      · simp only [hsub, if_true]
        have hmidk : (lo + hi + 1) / 2 ≤ k := by
          by_contra hc
          have := h2 ((lo + hi + 1) / 2) (by omega) (by omega)
          rw [this] at hsub
          exact Bool.false_ne_true hsub
        exact ih _ _ _ _ (by omega) (by omega) hmidk hkhi hhit
      · rw [if_neg hsub]
        have hkmid : k < (lo + hi + 1) / 2 := by
          by_contra hc
          exact hsub (h1 ((lo + hi + 1) / 2) (by omega) (by omega))
        exact ih _ _ _ _ (by omega) hlo hlok (by omega) (by omega)
    · rw [if_neg hlt]
      omega

theorem findLastAux_fetches (fetch : Nat → PageJson) :
    ∀ (fuel lo hi : Nat) (lj : Option PageJson) (f : Nat), hi - lo ≤ fuel →
      (findLastAux fetch fuel lo hi lj f).2.2 ≤ f + Nat.clog 2 (hi - lo + 1) := by
  intro fuel
  induction fuel with
  | zero =>
    intro lo hi lj f hfuel
    exact Nat.le_add_right f _
  | succ fuel ih =>
    intro lo hi lj f hfuel
    rw [findLastAux]
    by_cases hlt : lo < hi
    · rw [if_pos hlt]
      have hsize : 2 ≤ hi - lo + 1 := by omega
      have hclog : Nat.clog 2 (hi - lo + 1) = Nat.clog 2 ((hi - lo + 1 + 1) / 2) + 1 :=
        Nat.clog_of_two_le (by omega) hsize
      by_cases hsub : pageHasSubmissions (fetch ((lo + hi + 1) / 2)) = true
      · simp only [hsub, if_true]
        have hrec := ih ((lo + hi + 1) / 2) hi (some (fetch ((lo + hi + 1) / 2))) (f + 1)
          (by omega)
        have hmono : Nat.clog 2 (hi - (lo + hi + 1) / 2 + 1) ≤
            Nat.clog 2 ((hi - lo + 1 + 1) / 2) :=
          Nat.clog_mono_right 2 (by omega)
        omega
      · rw [if_neg hsub]
        have hrec := ih lo ((lo + hi + 1) / 2 - 1) lj (f + 1) (by omega)
        have hmono : Nat.clog 2 ((lo + hi + 1) / 2 - 1 - lo + 1) ≤
            Nat.clog 2 ((hi - lo + 1 + 1) / 2) :=
          Nat.clog_mono_right 2 (by omega)
        omega
    · rw [if_neg hlt]
      exact Nat.le_add_right f _

/-- **C1**: against any oracle where pages `1..k` show a submission and
pages `k+1..total` do not (`total ≥ k ≥ 1`), the boundary search returns
exactly `k` and makes at most `⌈log₂ total⌉ + 1` page fetches. -/
theorem boundary_search_c1 (fetch : Nat → PageJson) (k total : Nat)
    (hk1 : 1 ≤ k) (hk2 : k ≤ total)
    (h1 : ∀ p, 1 ≤ p → p ≤ k → pageHasSubmissions (fetch p) = true)
    (h2 : ∀ p, k < p → p ≤ total → pageHasSubmissions (fetch p) = false) :
    (findLastSubmissionPage fetch (total : Int)).1 = k ∧
    (findLastSubmissionPage fetch (total : Int)).2.2 ≤ Nat.clog 2 total + 1 := by
  have htn : (total : Int).toNat = total := Int.toNat_natCast total
  have hb := findLastAux_boundary fetch k total h1 h2 total 1 total none 0 (by omega)
    (by omega) hk1 hk2 le_rfl
  have hf := findLastAux_fetches fetch total 1 total none 0 (by omega)
  have htot : total - 1 + 1 = total := by omega
  rw [htot] at hf
  unfold findLastSubmissionPage
  rw [htn]
  rcases hr : findLastAux fetch total 1 total none 0 with ⟨lo, lj, f⟩
  rw [hr] at hb hf
  cases lj with
  | some pj => exact ⟨hb, by simpa using hf.trans (by omega)⟩
  | none =>
    refine ⟨hb, ?_⟩
    simp only at hf ⊢
    omega

/-- A page with one submitted row (rank 1, "100 reps", valid). -/
def subPage : PageJson :=
  ⟨none, some [⟨some (.num 1), [⟨some "100 reps", none, some (.str "1")⟩]⟩]⟩

/-- A page with no rows at all. -/
def emptyPage : PageJson := ⟨none, none⟩

/-- The synthetic oracle for the C1 witness: pages `1..3` have submissions,
later pages do not. -/
def witnessFetch (p : Nat) : PageJson := if p ≤ 3 then subPage else emptyPage

/-- Witness for C1: boundary 3 out of 10 total pages, within the fetch
budget. -/
theorem boundary_search_c1_witness :
    (findLastSubmissionPage witnessFetch (10 : Int)).1 = 3 ∧
    (findLastSubmissionPage witnessFetch (10 : Int)).2.2 ≤ Nat.clog 2 10 + 1 :=
  boundary_search_c1 witnessFetch 3 10 (by decide) (by decide)
    (fun p _ hp2 => by rw [witnessFetch, if_pos hp2]; decide)
    (fun p hp1 _ => by rw [witnessFetch, if_neg (by omega)]; decide)

/-! ## Helper lemmas: row counting and pipeline inversion -/

theorem extractRow_counts (tc ts : Int) (acc : List Point × Nat × Nat) (row : RowJson) :
    (extractRow tc ts acc row).2.2 = acc.2.2 + 1 ∧
    (extractRow tc ts acc row).2.1 ≤ acc.2.1 + 1 ∧
    acc.2.1 ≤ (extractRow tc ts acc row).2.1 := by
  rcases acc with ⟨pts, s, t⟩
  simp only [extractRow]
  cases pyInt (orZero row.overallRank) with
  | none => simp
  | some rank =>
    simp only []
    cases parseReps (row.scores.headD emptyScoreJson).scoreDisplay
        (row.scores.headD emptyScoreJson).breakdown with
    | none => repeat' split <;> try simp_all
    | some r => repeat' split <;> try simp_all

theorem extract_fold_counts (tc ts : Int) : ∀ (rows : List RowJson)
    (acc : List Point × Nat × Nat),
    (rows.foldl (extractRow tc ts) acc).2.1 + acc.2.2 ≤
      (rows.foldl (extractRow tc ts) acc).2.2 + acc.2.1 := by
  intro rows
  induction rows with
  | nil =>
    intro acc
    simp only [List.foldl_nil]
    omega
  | cons row rest ih =>
    intro acc
    obtain ⟨h1, h2, h3⟩ := extractRow_counts tc ts acc row
    have := ih (extractRow tc ts acc row)
    simp only [List.foldl_cons]
    omega

theorem extractPointsFromPage_counts {page_json : PageJson} {ft ts : Int}
    {pts : List Point} {sub tot : Nat}
    (h : extractPointsFromPage page_json ft ts = some (pts, sub, tot)) : sub ≤ tot := by
  simp only [extractPointsFromPage, bind, Option.bind_eq_some, Option.pure_def,
    Option.some.injEq] at h
  obtain ⟨tc, _, heq⟩ := h
  have hc := extract_fold_counts (if tc != 0 then tc else ft) ts (rowsOf page_json) ([], 0, 0)
  rw [heq] at hc
  simpa using hc

theorem accumulatePages_counts (first : PageJson) (fetch : Nat → PageJson)
    (lsp : Nat) (lsj : PageJson) (tc ts : Int) : ∀ (pages : List Nat)
    (acc res : List Point × Nat × Nat),
    accumulatePages first fetch lsp lsj tc ts pages acc = some res →
    acc.2.1 ≤ acc.2.2 → res.2.1 ≤ res.2.2 := by
  intro pages
  induction pages with
  | nil =>
    intro acc res h hle
    simp only [accumulatePages, Option.some.injEq] at h
    subst h
    exact hle
  | cons p rest ih =>
    intro acc res h hle
    simp only [accumulatePages, bind, Option.bind_eq_some] at h
    obtain ⟨⟨pts, sub, tot⟩, hext, hrec⟩ := h
    have hst : sub ≤ tot := extractPointsFromPage_counts hext
    refine ih _ res hrec ?_
    simp only []
    omega

theorem apiCurve_eq_some {first : PageJson} {fetch : Nat → PageJson} {buckets : Int}
    {payload : CurvePayload} (h : apiCurve first fetch buckets = some payload) :
    ∃ total_pages total_competitors samples acc,
      pyInt (orZero (first.pagination.getD ⟨none, none⟩).totalPages) = some total_pages ∧
      pyInt (orZero (first.pagination.getD ⟨none, none⟩).totalCompetitors) =
        some total_competitors ∧
      makePageSamples ((findLastSubmissionPage fetch total_pages).1 : Int) buckets =
        some samples ∧
      accumulatePages first fetch (findLastSubmissionPage fetch total_pages).1
        (findLastSubmissionPage fetch total_pages).2.1 total_competitors
        (maxSubmittedRank (findLastSubmissionPage fetch total_pages).2.1)
        (if 1 ∈ samples then samples else sortPagesAsc (1 :: samples)) ([], 0, 0) =
        some acc ∧
      payload = { totalPages := total_pages
                  totalCompetitors := total_competitors
                  lastSubmissionPage := (findLastSubmissionPage fetch total_pages).1
                  totalSubmitted :=
                    maxSubmittedRank (findLastSubmissionPage fetch total_pages).2.1
                  sampledPages :=
                    (if 1 ∈ samples then samples else sortPagesAsc (1 :: samples)).length
                  sampledRows := acc.2.2
                  sampledSubmittedRows := acc.2.1
                  estimatedSubmissionRate :=
                    if acc.2.2 ≠ 0 then some ((acc.2.1 : ℚ) / (acc.2.2 : ℚ)) else none
                  points := sortByPercentile (mergeByRank acc.1) } := by
  simp only [apiCurve, apiCurveAfterSamples, bind, Option.bind_eq_some, Option.pure_def,
    Option.some.injEq] at h
  obtain ⟨tp, htp, tc, htc, samples, hsamples, acc, hacc, hpayload⟩ := h
  exact ⟨tp, tc, samples, acc, htp, htc, hsamples, hacc, hpayload.symm⟩

/-! ## Claim theorems: curve invariants (C6, C7) -/

/-- **C6**: in every payload the curve computation returns, point ranks are
pairwise distinct and the points are sorted non-decreasing in percentile. -/
theorem curve_sorted_nodup_c6 :
    ∀ (first : PageJson) (fetch : Nat → PageJson) (buckets : Int)
      (payload : CurvePayload), apiCurve first fetch buckets = some payload →
      (payload.points.map Point.rank).Nodup ∧ payload.points.Sorted pctLE := by
  intro first fetch buckets payload h
  obtain ⟨tp, tc, samples, acc, _, _, _, _, rfl⟩ := apiCurve_eq_some h
  constructor
  · have hperm : List.Perm ((sortByPercentile (mergeByRank acc.1)).map Point.rank)
        ((mergeByRank acc.1).map Point.rank) :=
      (List.perm_insertionSort pctLE (mergeByRank acc.1)).map Point.rank
    exact hperm.nodup_iff.mpr (mergeByRank_ranks_nodup acc.1)
  · show List.Sorted pctLE (sortByPercentile (mergeByRank acc.1))
    exact List.sorted_insertionSort pctLE (mergeByRank acc.1)

/-- Metadata page for the concrete curve run used by witnesses: 3 total
pages, 100 competitors, two submitted rows. -/
def c6First : PageJson :=
  ⟨some ⟨some (.num 3), some (.num 100)⟩,
   some [⟨some (.num 1), [⟨some "11:16", some "354 reps, 3 rounds", some (.str "1")⟩]⟩,
         ⟨some (.num 2), [⟨some "300 reps", none, some (.str "1")⟩]⟩]⟩

/-- Page 2 of the concrete run: one submitted row of rank 11. -/
def c6Page2 : PageJson :=
  ⟨none, some [⟨some (.num 11), [⟨some "250 reps", none, some (.str "1")⟩]⟩]⟩

/-- The remote pages of the concrete run: submissions stop after page 2. -/
def c6Fetch (p : Nat) : PageJson := if p = 2 then c6Page2 else emptyPage

/-- The payload the concrete run produces. -/
def c6Payload : CurvePayload :=
  { totalPages := 3, totalCompetitors := 100, lastSubmissionPage := 2,
    totalSubmitted := 11, sampledPages := 2, sampledRows := 3,
    sampledSubmittedRows := 3, estimatedSubmissionRate := some 1,
    points := [⟨11, 250, 100 / 11⟩, ⟨2, 300, 1000 / 11⟩, ⟨1, 354, 100⟩] }

-- Witness for C6 on the concrete curve run.
unseal Rat.mul Rat.inv Rat.add Rat.sub in
theorem curve_sorted_nodup_c6_witness :
    (c6Payload.points.map Point.rank).Nodup ∧ c6Payload.points.Sorted pctLE :=
  curve_sorted_nodup_c6 c6First c6Fetch 20 c6Payload (by decide)

/-- The submission-rate guarantees C7 states for a payload. -/
def rateOK (payload : CurvePayload) : Prop :=
  payload.sampledSubmittedRows ≤ payload.sampledRows ∧
  (payload.sampledRows = 0 → payload.estimatedSubmissionRate = none) ∧
  (payload.sampledRows ≠ 0 → payload.estimatedSubmissionRate =
    some ((payload.sampledSubmittedRows : ℚ) / (payload.sampledRows : ℚ))) ∧
  ∀ r, payload.estimatedSubmissionRate = some r →
    r = (payload.sampledSubmittedRows : ℚ) / (payload.sampledRows : ℚ) ∧ 0 ≤ r ∧ r ≤ 1

/-- **C7**: the rate is `submitted_rows / total_rows` over the sampled
pages when any row was seen (and then lies in `[0, 1]`, since every
submitted row is also a seen row), and is absent when no row was seen. -/
theorem submission_rate_c7 :
    ∀ (first : PageJson) (fetch : Nat → PageJson) (buckets : Int)
      (payload : CurvePayload), apiCurve first fetch buckets = some payload →
      rateOK payload := by
  intro first fetch buckets payload h
  obtain ⟨tp, tc, samples, acc, _, _, _, hacc, rfl⟩ := apiCurve_eq_some h
  have hle : acc.2.1 ≤ acc.2.2 :=
    accumulatePages_counts _ _ _ _ _ _ _ _ _ hacc (by simp)
  refine ⟨hle, ?_, ?_, ?_⟩
  · intro h0
    simp only [] at h0
    simp [h0]
  · intro h0
    simp only [] at h0
    simp [h0]
  · intro r hr
    by_cases h0 : acc.2.2 = 0
    · simp [h0] at hr
    · simp only [ne_eq, h0, not_false_eq_true, if_true, Option.some.injEq] at hr
      subst hr
      have hpos : (0 : ℚ) < (acc.2.2 : ℚ) := by
        exact_mod_cast Nat.pos_of_ne_zero h0
      refine ⟨rfl, by positivity, ?_⟩
      rw [div_le_one hpos]
      exact_mod_cast hle

-- Witness for C7 on the concrete curve run.
unseal Rat.mul Rat.inv Rat.add Rat.sub in
theorem submission_rate_c7_witness : rateOK c6Payload :=
  submission_rate_c7 c6First c6Fetch 20 c6Payload (by decide)

/-! ## Claim theorems: error handling (C8) and the buckets=0 failure (C10) -/

theorem samplePagesCore_one (step : Nat) (hstep : 1 ≤ step) :
    samplePagesCore 1 step = [1] := by
  unfold samplePagesCore
  have h1 : (1 + step - 1) / step = 1 := by
    have h : 1 + step - 1 = step := by omega
    rw [h, Nat.div_self (by omega)]
  rw [h1]
  have h2 : List.range' 1 1 step = [1] := by simp [List.range']
  rw [h2]
  have h3 : min 1 (1 + step - 1) = 1 := by omega
  simp only [List.map_cons, List.map_nil, sortedDedup, List.foldr_cons, List.foldr_nil,
    insertSortedDedup]
  rw [h3]

/-- **C8, counterexample**: a truthy non-numeric `totalPages` ("abc") makes
the curve computation fail (uncaught `ValueError`), while an absent
`totalPages` is treated as zero and still yields a payload — so non-numeric
strings are not degraded gracefully. -/
theorem pagination_nonnumeric_c8_counterexample :
    apiCurve ⟨some ⟨some (.str "abc"), none⟩, none⟩ (fun _ => emptyPage) 20 = none ∧
    (apiCurve ⟨none, none⟩ (fun _ => emptyPage) 20).isSome := by
  constructor <;> decide

/-- A pagination field the code reads as zero: the key is absent, or its
value is falsy (`0`, `""`), so `pagination.get(...) or 0` yields `0` — this
also covers a wholly absent pagination object, whose `getD`-default fields
are absent. -/
def absentOrFalsy (o : Option JsonVal) : Prop := orZero o = .num 0

instance (o : Option JsonVal) : Decidable (absentOrFalsy o) :=
  inferInstanceAs (Decidable (_ = _))

/-- Graceful degradation of a metadata response: the curve computation
succeeds, reads both pagination fields as zero, and treats the leaderboard
as a single page. -/
def degradesToZero (first : PageJson) (fetch : Nat → PageJson) (buckets : Int) : Prop :=
  (apiCurve first fetch buckets).isSome ∧
  ∀ payload, apiCurve first fetch buckets = some payload →
    payload.totalPages = 0 ∧ payload.totalCompetitors = 0 ∧
    payload.lastSubmissionPage = 1

/-- An absent/falsy `totalPages` field is treated as zero: any payload the
computation returns reports `totalPages = 0` and took the single-page path
(`lastSubmissionPage = 1`). -/
def fieldZeroTotalPages (first : PageJson) (fetch : Nat → PageJson) (buckets : Int) : Prop :=
  ∀ payload, apiCurve first fetch buckets = some payload →
    payload.totalPages = 0 ∧ payload.lastSubmissionPage = 1

/-- An absent/falsy `totalCompetitors` field is treated as zero in any
payload the computation returns. -/
def fieldZeroTotalCompetitors (first : PageJson) (fetch : Nat → PageJson)
    (buckets : Int) : Prop :=
  ∀ payload, apiCurve first fetch buckets = some payload →
    payload.totalCompetitors = 0

theorem makePageSamples_one {buckets : Int} (hb : 1 ≤ buckets) :
    makePageSamples (((1 : Nat) : Int)) buckets = some [1] := by
  have hstep1 : 1 ≤ (max 1 (pyCeilDiv 1 buckets)).toNat := by
    have := le_max_left 1 (pyCeilDiv 1 buckets)
    omega
  show makePageSamples 1 buckets = some [1]
  unfold makePageSamples
  rw [if_neg (by omega), if_neg (by omega)]
  rw [show ((1 : Int)).toNat = 1 from rfl]
  rw [samplePagesCore_one _ hstep1]

/-- One unfolding step of the page-accumulation loop. -/
theorem accumulatePages_cons (first : PageJson) (fetch : Nat → PageJson)
    (lsp : Nat) (lsj : PageJson) (tc ts : Int) (p : Nat) (rest : List Nat)
    (acc : List Point × Nat × Nat) :
    accumulatePages first fetch lsp lsj tc ts (p :: rest) acc =
      (extractPointsFromPage (if p = 1 then first else if p = lsp then lsj else fetch p)
          tc ts).bind
        (fun x => accumulatePages first fetch lsp lsj tc ts rest
          (acc.1 ++ x.1, acc.2.1 + x.2.1, acc.2.2 + x.2.2)) := rfl

/-- **C8, amended**: for every metadata response, an absent or falsy
(`0` / `""`) `totalPages` field is treated as zero — every returned payload
then reports `totalPages = 0` and the single-page path
(`lastSubmissionPage = 1`) — and an absent or falsy `totalCompetitors`
field is treated as zero likewise; when both consumed pagination fields are
absent or falsy (and `buckets ≥ 1`) the computation degrades gracefully to
a single-page curve instead of failing.  A truthy non-numeric string,
however, raises an uncaught error (see the counterexample). -/
theorem pagination_absent_c8 :
    ∀ (first : PageJson) (fetch : Nat → PageJson) (buckets : Int),
      (absentOrFalsy (first.pagination.getD ⟨none, none⟩).totalPages →
        fieldZeroTotalPages first fetch buckets) ∧
      (absentOrFalsy (first.pagination.getD ⟨none, none⟩).totalCompetitors →
        fieldZeroTotalCompetitors first fetch buckets) ∧
      (absentOrFalsy (first.pagination.getD ⟨none, none⟩).totalPages →
        absentOrFalsy (first.pagination.getD ⟨none, none⟩).totalCompetitors →
        1 ≤ buckets → degradesToZero first fetch buckets) := by
  intro first fetch buckets
  refine ⟨?_, ?_, ?_⟩
  · -- absent/falsy `totalPages` is read as zero, boundary search sees 0 pages
    intro h1 payload hp
    obtain ⟨tp, tc, samples, acc, htp, _, _, _, rfl⟩ := apiCurve_eq_some hp
    rw [absentOrFalsy] at h1
    rw [h1] at htp
    simp only [pyInt] at htp
    have htp0 : tp = 0 := (Option.some_inj.mp htp).symm
    subst htp0
    exact ⟨rfl, rfl⟩
  · -- absent/falsy `totalCompetitors` is read as zero
    intro h2 payload hp
    obtain ⟨tp, tc, samples, acc, _, htc, _, _, rfl⟩ := apiCurve_eq_some hp
    rw [absentOrFalsy] at h2
    rw [h2] at htc
    simp only [pyInt] at htc
    have htc0 : tc = 0 := (Option.some_inj.mp htc).symm
    subst htc0
    rfl
  · -- both fields absent/falsy: the computation succeeds on the
    -- single-page path
    intro h1 h2 hb
    rw [absentOrFalsy] at h1 h2
    have htp0 : pyInt (orZero (first.pagination.getD ⟨none, none⟩).totalPages) =
        some 0 := by rw [h1]; rfl
    have htc0 : pyInt (orZero (first.pagination.getD ⟨none, none⟩).totalCompetitors) =
        some 0 := by rw [h2]; rfl
    have hsam := makePageSamples_one hb
    have hext : extractPointsFromPage first 0 (maxSubmittedRank (fetch 1)) =
        some ((rowsOf first).foldl (extractRow 0 (maxSubmittedRank (fetch 1)))
          ([], 0, 0)) := by
      simp only [extractPointsFromPage, bind]
      rw [htc0]
      rfl
    have hacc : accumulatePages first fetch 1 (fetch 1) 0 (maxSubmittedRank (fetch 1))
        [1] ([], 0, 0) =
        some (([] : List Point) ++
            ((rowsOf first).foldl (extractRow 0 (maxSubmittedRank (fetch 1))) ([], 0, 0)).1,
          0 + ((rowsOf first).foldl (extractRow 0 (maxSubmittedRank (fetch 1)))
            ([], 0, 0)).2.1,
          0 + ((rowsOf first).foldl (extractRow 0 (maxSubmittedRank (fetch 1)))
            ([], 0, 0)).2.2) := by
      rw [accumulatePages_cons, if_pos rfl, hext]
      rfl
    have hkey : apiCurve first fetch buckets =
        apiCurveAfterSamples first fetch 1 (fetch 1) 0 0 [1] := by
      simp only [apiCurve, bind]
      rw [htp0]
      simp only [Option.bind]
      rw [htc0]
      simp only [Option.bind]
      rw [show findLastSubmissionPage fetch 0 = (1, fetch 1, 1) from rfl]
      rw [hsam]
    constructor
    · rw [hkey]
      simp only [apiCurveAfterSamples, bind]
      rw [if_pos (List.mem_singleton_self 1), hacc]
      rfl
    · intro payload hp
      rw [hkey] at hp
      simp only [apiCurveAfterSamples, bind, Option.bind_eq_some, Option.pure_def,
        Option.some.injEq] at hp
      obtain ⟨acc, _, rfl⟩ := hp
      exact ⟨rfl, rfl, rfl⟩

-- Witness for the amended C8: a metadata page whose pagination object is
-- present but whose fields are falsy (`totalPages = 0`,
-- `totalCompetitors = ""`), with a submitted row.
theorem pagination_absent_c8_witness :
    fieldZeroTotalPages
      ⟨some ⟨some (.num 0), some (.str "")⟩,
       some [⟨some (.num 7), [⟨some "10 reps", none, some (.str "1")⟩]⟩]⟩
      (fun _ => emptyPage) 20 ∧
    fieldZeroTotalCompetitors
      ⟨some ⟨some (.num 0), some (.str "")⟩,
       some [⟨some (.num 7), [⟨some "10 reps", none, some (.str "1")⟩]⟩]⟩
      (fun _ => emptyPage) 20 ∧
    degradesToZero
      ⟨some ⟨some (.num 0), some (.str "")⟩,
       some [⟨some (.num 7), [⟨some "10 reps", none, some (.str "1")⟩]⟩]⟩
      (fun _ => emptyPage) 20 :=
  ⟨(pagination_absent_c8 _ _ 20).1 (by decide),
   (pagination_absent_c8 _ _ 20).2.1 (by decide),
   (pagination_absent_c8 _ _ 20).2.2 (by decide) (by decide) (by decide)⟩

theorem findLastAux_ge (fetch : Nat → PageJson) :
    ∀ (fuel lo hi : Nat) (lj : Option PageJson) (f : Nat),
      lo ≤ (findLastAux fetch fuel lo hi lj f).1 := by
  intro fuel
  induction fuel with
  | zero => intro lo hi lj f; exact le_rfl
  | succ fuel ih =>
    intro lo hi lj f
    rw [findLastAux]
    by_cases hlt : lo < hi
    · rw [if_pos hlt]
      by_cases hsub : pageHasSubmissions (fetch ((lo + hi + 1) / 2)) = true
      · simp only [hsub, if_true]
        have := ih ((lo + hi + 1) / 2) hi (some (fetch ((lo + hi + 1) / 2))) (f + 1)
        omega
      · rw [if_neg hsub]
        exact ih lo ((lo + hi + 1) / 2 - 1) lj (f + 1)
    · rw [if_neg hlt]

theorem findLastSubmissionPage_pos (fetch : Nat → PageJson) (total_pages : Int) :
    1 ≤ (findLastSubmissionPage fetch total_pages).1 := by
  unfold findLastSubmissionPage
  have h := findLastAux_ge fetch total_pages.toNat 1 total_pages.toNat none 0
  rcases hr : findLastAux fetch total_pages.toNat 1 total_pages.toNat none 0 with ⟨lo, lj, f⟩
  rw [hr] at h
  cases lj <;> simpa using h

/-- **C10**: the served operation has no guard on `buckets`: the located
boundary page is always `≥ 1`, so a request with `buckets = 0` always
reaches the sampler's `ceil(total_pages / target_buckets)` division and
fails with an error instead of returning a curve. -/
theorem buckets_zero_c10 :
    ∀ (first : PageJson) (fetch : Nat → PageJson) (total_pages : Int),
      1 ≤ (findLastSubmissionPage fetch total_pages).1 ∧
      apiCurve first fetch 0 = none := by
  intro first fetch total_pages
  refine ⟨findLastSubmissionPage_pos fetch total_pages, ?_⟩
  simp only [apiCurve, bind]
  cases h1 : pyInt (orZero (first.pagination.getD ⟨none, none⟩).totalPages) with
  | none => rfl
  | some tp =>
    simp only [Option.bind]
    cases h2 : pyInt (orZero (first.pagination.getD ⟨none, none⟩).totalCompetitors) with
    | none => rfl
    | some tc =>
      simp only [Option.bind]
      have hpos := findLastSubmissionPage_pos fetch tp
      have hnone : makePageSamples (((findLastSubmissionPage fetch tp).1 : Nat) : Int) 0 =
          none := by
        unfold makePageSamples
        rw [if_neg (by omega), if_pos rfl]
      rw [hnone]
